import Mathlib

/-!
Shallow embedding of the validation-error aggregation core of
`alauda/go-git-providers` (file `src/validation.go`, package `gitprovider`),
together with the entity-level validation scenario exercised by
`src/types_validation_test.go`.

Modelling decisions for the Go error values:

* A Go `error` value is a tree.  Leaf errors (`errors.New` sentinels and
  custom comparable error values) are identified by an allocation id: in Go,
  `err == target` on two leaf errors is pointer equality, so two distinct
  allocations never compare equal even with the same message.  We model this
  by comparing the `(ty, id)` pair; ids are unique per allocation.
* `fmt.Errorf("...: %w", err)` produces a `*fmt.wrapError` whose `Error()`
  string is the formatted text and whose `Unwrap()` returns `err`.  A freshly
  allocated wrap value is never pointer-equal to a pre-existing target, and
  `*fmt.wrapError` has neither an `Is` nor an `As` method.
* `&MultiError{Errors: es}` is modelled by `GoError.multi es`.  A freshly
  allocated `*MultiError` is never pointer-equal to a pre-existing target.
* Go `nil` errors are modelled by `Option GoError` (`none` = nil); the
  builder's internal `errs []error` is a `List (Option GoError)` so that the
  defensive nil-filter in `Error()` is representable.
* The dynamic type of an error value (what `errors.As` matches a target slot
  against) is `ErrTy`: all leaf errors carry their concrete type tag
  (`errors.New` values all share the tag of `*errorString`), wrap errors are
  `*fmt.wrapError`, and `GoError.multi` is `*MultiError`.  We model matching
  against concrete target types (as in the package's doc comments and tests),
  not against interface targets.
* The Go `value interface{}` argument of `Append`/`Invalid` is modelled as
  `Option String`: `none` is a nil interface value, `some v` a non-nil value
  whose `fmt.Sprintf("%v", value)` rendering is `v`.
-/

set_option autoImplicit false

namespace GoGitProviders

/-- A Go error value, as a tree: leaf comparable errors (identified by a
dynamic-type tag and an allocation id), `fmt.Errorf`-with-`%w` wrap errors,
and `*MultiError` composites (`src/validation.go`, `MultiError` struct). -/
inductive GoError : Type where
  | leaf (ty : Nat) (id : Nat) (msg : String)
  | wrapError (pre : String) (cause : GoError)
  | multi (errs : List GoError)

/-- Dynamic type of a Go error value, used by the `errors.As` model. -/
inductive ErrTy : Type where
  | leafTy (ty : Nat)
  | wrapTy
  | multiTy
deriving DecidableEq

/-- Dynamic type of an error value: `target.(*MultiError)` in `MultiError.Is`
and the assignability check of `errors.As` consult this. -/
def tyOf : GoError → ErrTy
  | .leaf ty _ _ => .leafTy ty
  | .wrapError _ _ => .wrapTy
  | .multi _ => .multiTy

/-- Whether a Go error value is a `*MultiError`: the type assertion
`_, ok := target.(*MultiError)` at the top of `MultiError.Is`. -/
def isMultiError : GoError → Bool
  | .multi _ => true
  | _ => false

mutual

/-- Go stdlib `errors.Is err target` on the modelled error trees.
At each node: the pointer-equality check `err == target` (true only for the
same leaf allocation; fresh wrap/multi allocations never equal a target),
then the node's own `Is` method (only `*MultiError` has one: its body is
inlined in the `multi` branch here, and restated as `MultiErrorIs` below),
then `Unwrap` (only `*fmt.wrapError` has one). -/
def goIs : GoError → GoError → Bool
  | .leaf ty id _, t =>
    match t with
    | .leaf ty2 id2 _ => ty == ty2 && id == id2
    | _ => false
  | .wrapError _ c, t => goIs c t
  | .multi es, t => isMultiError t || anyIs es t

/-- Loop body of `MultiError.Is`: `for _, err := range e.Errors { if
errors.Is(err, target) { return true } }; return false`. -/
def anyIs : List GoError → GoError → Bool
  | [], _ => false
  | e :: es, t => goIs e t || anyIs es t

end

/-- Method `func (e *MultiError) Is(target error) bool` of
`src/validation.go`: returns true at once when the target is itself a
`*MultiError`, otherwise scans the contained errors with `errors.Is`. -/
def MultiErrorIs (errs : List GoError) (target : GoError) : Bool :=
  if isMultiError target then true
  else anyIs errs target

mutual

/-- Go stdlib `errors.As err target` on the modelled error trees, for a
target slot of concrete type `T`.  At each node: if the node's dynamic type
is `T` it is written into the target (modelled by returning it in `some`);
otherwise the node's own `As` method runs (only `*MultiError` has one:
`MultiErrorAs`); otherwise `Unwrap` (only `*fmt.wrapError` has one). -/
def goAs : GoError → ErrTy → Option GoError
  | .leaf ty id msg, T =>
    if ErrTy.leafTy ty = T then some (.leaf ty id msg) else none
  | .wrapError pre c, T =>
    if ErrTy.wrapTy = T then some (.wrapError pre c) else goAs c T
  | .multi es, T =>
    if ErrTy.multiTy = T then some (.multi es) else MultiErrorAs es T

/-- Method `func (e *MultiError) As(target interface{}) bool` of
`src/validation.go`: `for _, err := range e.Errors { if errors.As(err,
target) { return true } }; return false` — first success wins, its value is
written into the target. -/
def MultiErrorAs : List GoError → ErrTy → Option GoError
  | [], _ => none
  | err :: rest, T =>
    match goAs err T with
    | some v => some v
    | none => MultiErrorAs rest T

end

mutual

/-- String rendering `Error() string` of the modelled error values.  A leaf
renders its message; a wrap error renders the `fmt.Errorf` text (context
followed by the wrapped error's own rendering); `MultiError.Error` of
`src/validation.go` renders the header plus one `"\n- "` bullet per held
error.  Go accumulates the bullets left-to-right with `+=`; the right-nested
concatenation here produces the same string by associativity. -/
def errorString : GoError → String
  | .leaf _ _ msg => msg
  | .wrapError pre c => pre ++ ": " ++ errorString c
  | .multi errs => "multiple errors occurred: " ++ multiBody errs

/-- Bullet-list accumulation of `MultiError.Error`: `errStr +=
fmt.Sprintf("\n- %s", err.Error())` over the held errors in order. -/
def multiBody : List GoError → String
  | [] => ""
  | err :: rest => "\n- " ++ errorString err ++ multiBody rest

end

/-- Modelled from the spec: the sentinel Failure Kind `ErrFieldRequired`
("a mandatory field was empty/zero").  The sentinel declarations live in the
validation errors file of this repository, which is not under `src/`; each is
a package-level `errors.New` value — a fresh `*errorString` allocation —
modelled as a leaf with the shared `*errorString` type tag 0 and a unique
allocation id. -/
def ErrFieldRequired : GoError := .leaf 0 0 "field is required"

/-- Modelled from the spec: the sentinel Failure Kind `ErrFieldInvalid`
("a field's value failed a structural check"); see `ErrFieldRequired` for the
modelling of the missing sentinel declarations. -/
def ErrFieldInvalid : GoError := .leaf 0 1 "field is invalid"

/-- Modelled from the spec: the sentinel Failure Kind `ErrFieldEnumInvalid`
("a field's value is not a member of its declared enumeration"); see
`ErrFieldRequired` for the modelling of the missing sentinel declarations. -/
def ErrFieldEnumInvalid : GoError := .leaf 0 2 "field value is not a valid option"

/-- The builder struct `validationErrorList` of `src/validation.go`: the name
of the object being validated and the ordered list of recorded errors (Go
`[]error`, whose entries may in principle be nil — hence `Option`). -/
structure validationErrorList : Type where
  name : String
  errs : List (Option GoError)

/-- Constructor `newValidationErrorList(name string)` of `src/validation.go`:
`&validationErrorList{name, nil}`. -/
def newValidationErrorList (name : String) : validationErrorList :=
  ⟨name, []⟩

/-- Method `Append(err error, value interface{}, fieldPaths ...string)` of
`src/validation.go`: returns at once when `err` is nil; otherwise joins the
builder name and the field-path segments with `"."`, conditionally renders
the value suffix, and appends the `fmt.Errorf("validation error for %s%s:
%w", fieldPath, valStr, err)` wrap of the cause to the internal list. -/
def validationErrorList.Append (el : validationErrorList) (err : Option GoError)
    (value : Option String) (fieldPaths : List String) : validationErrorList :=
  match err with
  | none => el
  | some e =>
    let fieldPath := String.intercalate "." (el.name :: fieldPaths)
    let valStr :=
      match value with
      | none => ""
      | some v => " (value: " ++ v ++ ")"
    { el with
      errs := el.errs ++ [some (.wrapError ("validation error for " ++ fieldPath ++ valStr) e)] }

/-- Method `Required(fieldPaths ...string)` of `src/validation.go`:
`el.Append(ErrFieldRequired, nil, fieldPaths...)`. -/
def validationErrorList.Required (el : validationErrorList)
    (fieldPaths : List String) : validationErrorList :=
  el.Append (some ErrFieldRequired) none fieldPaths

/-- Method `Invalid(value interface{}, fieldPaths ...string)` of
`src/validation.go`: `el.Append(ErrFieldInvalid, value, fieldPaths...)`. -/
def validationErrorList.Invalid (el : validationErrorList)
    (value : Option String) (fieldPaths : List String) : validationErrorList :=
  el.Append (some ErrFieldInvalid) value fieldPaths

/-- Method `Error() error` of `src/validation.go`: nil when the list is
empty; otherwise filter out nil entries; nil when nothing remains; the sole
remaining error when exactly one remains; otherwise `&MultiError{Errors:
filteredErrs}`. -/
def validationErrorList.Error (el : validationErrorList) : Option GoError :=
  if el.errs.length = 0 then none
  else
    let filteredErrs := el.errs.filterMap id
    if h0 : filteredErrs.length = 0 then none
    else if filteredErrs.length = 1 then
      some (filteredErrs.get ⟨0, by omega⟩)
    else
      some (.multi filteredErrs)

/-- One call to one of the builder's recorder methods, for quantifying over
arbitrary sequences of recorder calls on a builder. -/
inductive RecorderCall : Type where
  | required (fieldPaths : List String)
  | invalid (value : Option String) (fieldPaths : List String)
  | append (cause : Option GoError) (value : Option String) (fieldPaths : List String)

/-- Execution of one recorder call against a builder state. -/
def runCall (el : validationErrorList) : RecorderCall → validationErrorList
  | .required ps => el.Required ps
  | .invalid v ps => el.Invalid v ps
  | .append c v ps => el.Append c v ps

/-- Execution of a sequence of recorder calls against a builder state, in
order. -/
def runCalls (el : validationErrorList) : List RecorderCall → validationErrorList
  | [] => el
  | c :: cs => runCalls (runCall el c) cs

/-- Modelled from the spec: the repository-reference descriptor (domain,
organization-or-user path, repository name) embedded in the entities under
validation.  The entity type declarations of this repository are not under
`src/` (only their tests are). -/
structure RepositoryRef : Type where
  domain : String
  orgOrUser : String
  repoName : String

/-- Modelled from the spec: recursive validation of an embedded
repository-reference descriptor — its own domain / organization-or-user /
name required checks — resolved to an error that the embedding entity folds
into its builder.  The descriptor's validation function of this repository is
not under `src/`. -/
def RepositoryRef.validate (r : RepositoryRef) : Option GoError :=
  let el := newValidationErrorList "RepositoryRef"
  let el := if r.domain = "" then el.Required ["Domain"] else el
  let el := if r.orgOrUser = "" then el.Required ["Organization"] else el
  let el := if r.repoName = "" then el.Required ["RepositoryName"] else el
  el.Error

/-- Modelled from the spec: the deploy-key record — name, key material, and
an optional owning-repository reference.  The `DeployKey` type declaration of
this repository is not under `src/` (only its test is). -/
structure DeployKey : Type where
  name : String
  key : List Nat
  repository : Option RepositoryRef

/-- Modelled from the spec: `DeployKey.ValidateCreate`, which is not under
`src/` (only its test is).  Per §4.3 of the spec it instantiates a builder
scoped to `"DeployKey"`, records a `FieldRequired` failure for an empty name
and for empty key material (paths `DeployKey.Name`, `DeployKey.Key`, per
Scenario A), recursively validates the embedded repository reference when
present (folding its error in under the embedding field's name), and resolves
the builder. -/
def DeployKey.ValidateCreate (dk : DeployKey) : Option GoError :=
  let el := newValidationErrorList "DeployKey"
  let el := if dk.name = "" then el.Required ["Name"] else el
  let el := if dk.key.length = 0 then el.Required ["Key"] else el
  let el :=
    match dk.repository with
    | none => el
    | some r => el.Append r.validate none ["Repository"]
  el.Error

/-! Helper lemmas shared by the claim theorems. -/

/-- The length-based if chain at the heart of the resolve step, characterised
by the shape of the list it scrutinises. -/
theorem error_core (l : List GoError) :
    (if h0 : l.length = 0 then (none : Option GoError)
     else if l.length = 1 then some (l.get ⟨0, by omega⟩)
     else some (GoError.multi l)) =
      match l with
      | [] => none
      | [e] => some e
      | e1 :: e2 :: rest => some (GoError.multi (e1 :: e2 :: rest)) := by
  rcases l with _ | ⟨e1, _ | ⟨e2, rest⟩⟩ <;> rfl

/-- The resolve step, characterised by the shape of the nil-filtered list:
the dependent-if chain of `validationErrorList.Error` computes exactly the
empty / singleton / two-or-more case split on the filtered errors. -/
theorem validationErrorList.error_eq (el : validationErrorList) :
    el.Error =
      match el.errs.filterMap id with
      | [] => none
      | [e] => some e
      | e1 :: e2 :: rest => some (GoError.multi (e1 :: e2 :: rest)) := by
  unfold validationErrorList.Error
  by_cases h : el.errs.length = 0
  · have he : el.errs = [] := List.length_eq_zero.mp h
    simp [he]
  · rw [if_neg h]
    exact error_core _

/-- The `MultiError.Is` scan loop agrees with `List.any`. -/
theorem anyIs_eq_any (es : List GoError) (t : GoError) :
    anyIs es t = es.any fun e => goIs e t := by
  induction es with
  | nil => rfl
  | cons e es ih => simp [anyIs, ih]

/-- Appending a recorder call only ever extends the recorded list at its
tail; existing entries are untouched. -/
theorem runCall_errs_extend (el : validationErrorList) (c : RecorderCall) :
    ∃ tail, (runCall el c).errs = el.errs ++ tail := by
  cases c with
  | required ps => exact ⟨_, rfl⟩
  | invalid v ps => exact ⟨_, rfl⟩
  | append cause v ps =>
    cases cause with
    | none => exact ⟨[], (List.append_nil _).symm⟩
    | some e => exact ⟨_, rfl⟩

/-- Recorder calls only ever append `some`-entries: a builder whose list has
no nil entry keeps that property across any recorder call. -/
theorem runCall_all_isSome (el : validationErrorList) (c : RecorderCall)
    (h : el.errs.all Option.isSome = true) :
    (runCall el c).errs.all Option.isSome = true := by
  cases c with
  | required ps => simp_all [runCall, validationErrorList.Required, validationErrorList.Append]
  | invalid v ps => simp_all [runCall, validationErrorList.Invalid, validationErrorList.Append]
  | append cause v ps =>
    cases cause with
    | none => exact h
    | some e => simp_all [runCall, validationErrorList.Append]

/-- A builder grown from a nil-free state by any sequence of recorder calls
stays nil-free. -/
theorem runCalls_all_isSome (el : validationErrorList) (calls : List RecorderCall)
    (h : el.errs.all Option.isSome = true) :
    (runCalls el calls).errs.all Option.isSome = true := by
  induction calls generalizing el with
  | nil => exact h
  | cons c cs ih => exact ih _ (runCall_all_isSome el c h)

/-- On a nil-free list, the defensive `filterMap id` filter removes
nothing: the result has the same length. -/
theorem filterMap_id_length_of_all_isSome (l : List (Option GoError))
    (h : l.all Option.isSome = true) :
    (l.filterMap id).length = l.length := by
  induction l with
  | nil => rfl
  | cons a as ih =>
    cases a with
    | none => simp at h
    | some x =>
      simp only [List.all_cons, Bool.and_eq_true] at h
      simp [List.filterMap_cons, ih h.2]

/-- Shape of the entries the recorder methods produce: a non-nil
`fmt.Errorf`-wrapped error. -/
def entryIsWrap : Option GoError → Bool
  | some (.wrapError _ _) => true
  | _ => false

/-- Every entry a recorder call appends is a non-nil wrap error: a builder
whose entries are all wrap errors keeps that shape across any call. -/
theorem runCall_all_wrap (el : validationErrorList) (c : RecorderCall)
    (h : el.errs.all entryIsWrap = true) :
    (runCall el c).errs.all entryIsWrap = true := by
  cases c with
  | required ps =>
    simp_all [runCall, validationErrorList.Required, validationErrorList.Append, entryIsWrap]
  | invalid v ps =>
    simp_all [runCall, validationErrorList.Invalid, validationErrorList.Append, entryIsWrap]
  | append cause v ps =>
    cases cause with
    | none => exact h
    | some e => simp_all [runCall, validationErrorList.Append, entryIsWrap]

/-- A builder grown from a fresh state by any sequence of recorder calls
holds only non-nil wrap errors. -/
theorem runCalls_all_wrap (el : validationErrorList) (calls : List RecorderCall)
    (h : el.errs.all entryIsWrap = true) :
    (runCalls el calls).errs.all entryIsWrap = true := by
  induction calls generalizing el with
  | nil => exact h
  | cons c cs ih => exact ih _ (runCall_all_wrap el c h)

/-- Unfolding of `String.join` on a cons cell. -/
theorem string_join_cons (a : String) (l : List String) :
    String.join (a :: l) = a ++ String.join l := by
  apply String.ext
  simp

/-- The bullet accumulation of `MultiError.Error` is the join of the
individually rendered bullets, in held order. -/
theorem multiBody_eq_join (es : List GoError) :
    multiBody es = String.join (es.map fun e => "\n- " ++ errorString e) := by
  induction es with
  | nil => rfl
  | cons e es ih =>
    rw [List.map_cons, string_join_cons, multiBody, ih, String.append_assoc]

/-! Claim theorems. -/

/-- C1: the terminal `Error()` of the builder returns `none` when the
nil-filtered recorded sequence is empty, the sole remaining error unwrapped
when exactly one remains, and otherwise a newly constructed `MultiError`
holding the full filtered sequence in original recording order. -/
theorem error_resolution_by_filtered_arity (el : validationErrorList) :
    el.Error =
      match el.errs.filterMap id with
      | [] => none
      | [e] => some e
      | e1 :: e2 :: rest => some (GoError.multi (e1 :: e2 :: rest)) :=
  el.error_eq

/-- C2: for every sequence of recorder calls on a fresh builder, the resolve
step returns a `MultiError` only with two or more held errors, and a single
remaining recorded failure is returned as a plain error, not wrapped in a
one-element aggregate. -/
theorem multiError_never_small (name : String) (calls : List RecorderCall) :
    (∀ es, (runCalls (newValidationErrorList name) calls).Error = some (GoError.multi es) →
      2 ≤ es.length) ∧
    (∀ e, (runCalls (newValidationErrorList name) calls).errs.filterMap id = [e] →
      (runCalls (newValidationErrorList name) calls).Error = some e) := by
  constructor
  · intro es hes
    rw [validationErrorList.error_eq] at hes
    rcases hf : (runCalls (newValidationErrorList name) calls).errs.filterMap id with
      _ | ⟨e1, _ | ⟨e2, rest⟩⟩ <;> rw [hf] at hes
    · exact absurd hes (by simp)
    · exfalso
      have hmem : e1 ∈ (runCalls (newValidationErrorList name) calls).errs.filterMap id := by
        rw [hf]
        simp
      rcases List.mem_filterMap.mp hmem with ⟨a, ha, hae⟩
      have hall := runCalls_all_wrap (newValidationErrorList name) calls rfl
      have hw := List.all_eq_true.mp hall a ha
      have ha2 : a = some e1 := hae
      subst ha2
      cases e1 with
      | leaf ty id2 msg => simp [entryIsWrap] at hw
      | wrapError p c => simp at hes
      | multi ms => simp [entryIsWrap] at hw
    · simp only [Option.some.injEq, GoError.multi.injEq] at hes
      rw [← hes]
      simp
  · intro e he
    rw [validationErrorList.error_eq, he]

/-- Witness for C2 at concrete inputs: two recorded required-field failures
resolve to a two-element aggregate, and a single one resolves to the plain
wrapped error. -/
theorem multiError_never_small_witness :
    2 ≤ ([GoError.wrapError "validation error for X.A" ErrFieldRequired,
          GoError.wrapError "validation error for X.B" ErrFieldRequired]).length ∧
    (runCalls (newValidationErrorList "Y") [.required ["A"]]).Error =
      some (GoError.wrapError "validation error for Y.A" ErrFieldRequired) :=
  ⟨(multiError_never_small "X" [.required ["A"], .required ["B"]]).1
      [GoError.wrapError "validation error for X.A" ErrFieldRequired,
       GoError.wrapError "validation error for X.B" ErrFieldRequired] rfl,
   (multiError_never_small "Y" [.required ["A"]]).2
      (GoError.wrapError "validation error for Y.A" ErrFieldRequired) rfl⟩

/-- C3: the `Is` method of `MultiError` returns true immediately when the
target is itself any `MultiError`, regardless of the contents of either; and
for any other target it returns true exactly when the recursive identity
match `errors.Is` succeeds against at least one held error. -/
theorem multiErrorIs_spec (es : List GoError) (t : GoError) :
    (isMultiError t = true → MultiErrorIs es t = true) ∧
    (isMultiError t = false →
      (MultiErrorIs es t = true ↔ ∃ e ∈ es, goIs e t = true)) := by
  constructor
  · intro h
    simp [MultiErrorIs, h]
  · intro h
    simp [MultiErrorIs, h, anyIs_eq_any, List.any_eq_true]

/-- Witness for C3 at concrete inputs: an empty aggregate target matches a
one-element `MultiError` at once, and a non-aggregate target matches through
the held errors. -/
theorem multiErrorIs_spec_witness :
    MultiErrorIs [ErrFieldRequired] (GoError.multi []) = true ∧
    (MultiErrorIs [ErrFieldRequired] ErrFieldInvalid = true ↔
      ∃ e ∈ [ErrFieldRequired], goIs e ErrFieldInvalid = true) :=
  ⟨(multiErrorIs_spec [ErrFieldRequired] (GoError.multi [])).1 rfl,
   (multiErrorIs_spec [ErrFieldRequired] ErrFieldInvalid).2 rfl⟩

/-- C4: the `As` method of `MultiError` scans the held errors in order,
attempting `errors.As` (which recurses through nested aggregates) against
each in turn: it returns no value exactly when no held error yields one, and
it returns value `v` exactly when some held error yields `v` while every
earlier held error yields none — first success wins. -/
theorem multiErrorAs_first_match_spec (es : List GoError) (T : ErrTy) :
    (MultiErrorAs es T = none ↔ ∀ e ∈ es, goAs e T = none) ∧
    (∀ v, MultiErrorAs es T = some v ↔
      ∃ front hit back, es = front ++ hit :: back ∧
        (∀ x ∈ front, goAs x T = none) ∧ goAs hit T = some v) := by
  induction es with
  | nil =>
    constructor
    · simp [MultiErrorAs]
    · intro v
      constructor
      · intro h
        simp [MultiErrorAs] at h
      · rintro ⟨front, hit, back, habs, -, -⟩
        exact absurd habs (by simp)
  | cons e es ih =>
    refine ⟨⟨?_, ?_⟩, fun v => ⟨?_, ?_⟩⟩
    · intro h x hx
      rcases hge : goAs e T with _ | w
      · have hrest : MultiErrorAs es T = none := by
          simpa [MultiErrorAs, hge] using h
        rcases List.mem_cons.mp hx with hxe | hxs
        · rw [hxe, hge]
        · exact ih.1.mp hrest x hxs
      · exfalso
        simp [MultiErrorAs, hge] at h
    · intro hall
      have hge : goAs e T = none := hall e (List.mem_cons_self e es)
      have hrest := ih.1.mpr fun x hx => hall x (List.mem_cons_of_mem e hx)
      simp [MultiErrorAs, hge, hrest]
    · intro h
      rcases hge : goAs e T with _ | w
      · have hrest : MultiErrorAs es T = some v := by
          simpa [MultiErrorAs, hge] using h
        rcases (ih.2 v).mp hrest with ⟨front, hit, back, heq, hfront, hhit⟩
        refine ⟨e :: front, hit, back, by rw [List.cons_append, heq], ?_, hhit⟩
        intro x hx
        rcases List.mem_cons.mp hx with hxe | hxf
        · rw [hxe, hge]
        · exact hfront x hxf
      · have hv : w = v := by
          simpa [MultiErrorAs, hge] using h
        exact ⟨[], e, es, rfl, by simp, by rw [hge, hv]⟩
    · rintro ⟨front, hit, back, heq, hfront, hhit⟩
      cases front with
      | nil =>
        simp only [List.nil_append] at heq
        cases heq
        simp [MultiErrorAs, hhit]
      | cons f fs =>
        simp only [List.cons_append] at heq
        obtain ⟨hef, hes⟩ := List.cons.inj heq
        have hge : goAs e T = none := by
          rw [hef]
          exact hfront f (List.mem_cons_self f fs)
        have hrest : MultiErrorAs es T = some v :=
          (ih.2 v).mpr ⟨fs, hit, back, hes,
            fun x hx => hfront x (List.mem_cons_of_mem f hx), hhit⟩
        simp [MultiErrorAs, hge, hrest]

/-- Witness for C4 at concrete inputs: extraction fails when no held error
has the target type, and the first success — found inside a nested aggregate
— wins over a later direct match. -/
theorem multiErrorAs_first_match_spec_witness :
    MultiErrorAs [ErrFieldRequired] ErrTy.wrapTy = none ∧
    MultiErrorAs [GoError.multi [ErrFieldInvalid], ErrFieldRequired] (ErrTy.leafTy 0) =
      some ErrFieldInvalid :=
  ⟨(multiErrorAs_first_match_spec [ErrFieldRequired] ErrTy.wrapTy).1.mpr
      (by
        intro e he
        rw [List.mem_singleton] at he
        subst he
        rfl),
   ((multiErrorAs_first_match_spec [GoError.multi [ErrFieldInvalid], ErrFieldRequired]
        (ErrTy.leafTy 0)).2 ErrFieldInvalid).mpr
      ⟨[], GoError.multi [ErrFieldInvalid], [ErrFieldRequired], rfl, by simp, rfl⟩⟩

/-- C5: `Append` with a nil cause leaves the builder unchanged, for any value
and field-path arguments, and therefore never changes the result later
produced by `Error()`. -/
theorem append_nil_cause_noop (el : validationErrorList) (value : Option String)
    (fieldPaths : List String) :
    el.Append none value fieldPaths = el ∧
    (el.Append none value fieldPaths).Error = el.Error :=
  ⟨rfl, rfl⟩

/-- C6: `Required` appends exactly one error; its diagnostic string is the
field path — the builder's scope name followed by the segments joined by
`"."` — with no value suffix, and it unwraps via `errors.Is` to the sentinel
`ErrFieldRequired`. -/
theorem required_records_field_required (el : validationErrorList)
    (fieldPaths : List String) :
    (el.Required fieldPaths).errs = el.errs ++
      [some (GoError.wrapError
        ("validation error for " ++ String.intercalate "." (el.name :: fieldPaths))
        ErrFieldRequired)] ∧
    goIs (GoError.wrapError
        ("validation error for " ++ String.intercalate "." (el.name :: fieldPaths))
        ErrFieldRequired) ErrFieldRequired = true ∧
    errorString (GoError.wrapError
        ("validation error for " ++ String.intercalate "." (el.name :: fieldPaths))
        ErrFieldRequired) =
      "validation error for " ++ String.intercalate "." (el.name :: fieldPaths) ++ ": " ++
        errorString ErrFieldRequired := by
  refine ⟨?_, rfl, rfl⟩
  show el.errs ++ [some (GoError.wrapError
      ("validation error for " ++ String.intercalate "." (el.name :: fieldPaths) ++ "")
      ErrFieldRequired)] = _
  rw [String.append_empty]

/-- C7: `Invalid` appends exactly one error unwrapping to `ErrFieldInvalid`,
and its diagnostic string carries the `" (value: v)"` suffix after the field
path exactly when the value is non-nil. -/
theorem invalid_records_field_invalid (el : validationErrorList)
    (value : Option String) (fieldPaths : List String) :
    ∃ w : GoError,
      (el.Invalid value fieldPaths).errs = el.errs ++ [some w] ∧
      goIs w ErrFieldInvalid = true ∧
      errorString w =
        "validation error for " ++ String.intercalate "." (el.name :: fieldPaths) ++
          (match value with
           | none => ""
           | some v => " (value: " ++ v ++ ")") ++ ": " ++ errorString ErrFieldInvalid := by
  cases value <;> exact ⟨_, rfl, rfl, rfl⟩

/-- C9: validating a deploy-key record with empty name and empty key material
for Create yields a result that identity-matches an aggregate (a target
`&MultiError{}` matches it) and holds exactly two failures, with field paths
`DeployKey.Name` and `DeployKey.Key`, each unwrapping to `ErrFieldRequired`. -/
theorem deployKey_validateCreate_scenarioA :
    DeployKey.ValidateCreate ⟨"", [], none⟩ =
      some (GoError.multi
        [GoError.wrapError "validation error for DeployKey.Name" ErrFieldRequired,
         GoError.wrapError "validation error for DeployKey.Key" ErrFieldRequired]) ∧
    goIs (GoError.multi
        [GoError.wrapError "validation error for DeployKey.Name" ErrFieldRequired,
         GoError.wrapError "validation error for DeployKey.Key" ErrFieldRequired])
      (GoError.multi []) = true ∧
    goIs (GoError.wrapError "validation error for DeployKey.Name" ErrFieldRequired)
      ErrFieldRequired = true ∧
    goIs (GoError.wrapError "validation error for DeployKey.Key" ErrFieldRequired)
      ErrFieldRequired = true :=
  ⟨rfl, rfl, rfl, rfl⟩

/-- C8: the string rendering of a `MultiError` is the header followed by one
indented bullet per held error, each produced by that error's own rendering,
in exactly the held order; and recorder calls only extend the recorded
sequence at the tail, so the held order is the order the checks were
recorded, for all orderings of check invocation. -/
theorem multiError_rendering_ordered (es : List GoError) (el : validationErrorList)
    (c : RecorderCall) :
    errorString (GoError.multi es) =
      "multiple errors occurred: " ++ String.join (es.map fun e => "\n- " ++ errorString e) ∧
    ∃ tail, (runCall el c).errs = el.errs ++ tail :=
  ⟨congrArg (fun s => "multiple errors occurred: " ++ s) (multiBody_eq_join es),
   runCall_errs_extend el c⟩

/-- C10: every entry the recorder methods put in the builder's internal list
is a non-nil wrapped error, so the defensive nil-filter of `Error()` removes
nothing, and `Error()` resolves to nil exactly when nothing was recorded. -/
theorem builder_errs_never_nil (name : String) (calls : List RecorderCall) :
    (runCalls (newValidationErrorList name) calls).errs.all Option.isSome = true ∧
    ((runCalls (newValidationErrorList name) calls).errs.filterMap id).length =
      (runCalls (newValidationErrorList name) calls).errs.length ∧
    ((runCalls (newValidationErrorList name) calls).Error = none ↔
      (runCalls (newValidationErrorList name) calls).errs = []) := by
  have hall := runCalls_all_isSome (newValidationErrorList name) calls rfl
  refine ⟨hall, filterMap_id_length_of_all_isSome _ hall, ?_, ?_⟩
  · intro h
    rw [validationErrorList.error_eq] at h
    rcases hf : (runCalls (newValidationErrorList name) calls).errs.filterMap id with
      _ | ⟨e1, _ | ⟨e2, rest⟩⟩ <;> rw [hf] at h
    · have hlen := filterMap_id_length_of_all_isSome _ hall
      rw [hf] at hlen
      exact List.length_eq_zero.mp hlen.symm
    · exact absurd h (by simp)
    · exact absurd h (by simp)
  · intro h
    rw [validationErrorList.error_eq, h]
    rfl

end GoGitProviders
